import Mathlib

/-!
Verification of the live server-session layer of vira-mnc-manager.

The definitions below are a shallow embedding of the TypeScript source:

* `src/frontend/src/components/server/TabNavigation.tsx` (the
  `FilesExplorer` component: `buildFileTree`, `getCurrentFiles`,
  `currentFiles`, `isTextReadable`, `isReadable`, `handleFileClick`,
  `handleCopy`, `handleCut`, `handlePaste`);
* `src/frontend/src/app/dashboard/server/[name]/page.tsx` (the
  WebSocket `onmessage` dispatcher, `onclose` reconnect discipline,
  `startServer`/`stopServer`/`restartServer`, `uploadFile`);
* `src/frontend/src/components/server/ConsoleOutput.tsx` (`downloadLogs`);
* the `SocketMessage` union from the shared types file.

Modelling conventions: JavaScript strings are Lean `String`s, JS numbers
that the code only compares are Lean `Int`, `undefined`/`null` fields are
`Option`, and JS objects used as string-keyed maps are association lists.
A nested file-tree object is represented by the map from segment chains
(the list of path components leading to a node) to the node's record; the
`children` object of a node corresponds to the chains extending its chain
by one component.  JS `localeCompare` is modelled as code-unit
lexicographic comparison (the ECMAScript fallback ordering), `Array.sort`
as insertion sort with the translated comparator (the observable contract
of `Array.sort` with a consistent comparator: a sorted permutation), and
`String.toLowerCase`/`toUpperCase` as per-character ASCII case mapping.
-/

/-- ASCII-wise lowercasing, the model of JS `String.toLowerCase`. -/
def toLowerStr (s : String) : String := String.mk (s.data.map Char.toLower)

/-- ASCII-wise uppercasing, the model of JS `String.toUpperCase`. -/
def toUpperStr (s : String) : String := String.mk (s.data.map Char.toUpper)

/-- Model of JS `str.split(sep)` for a one-character separator, on the
character list: splitting an empty string gives one empty group, and a
trailing separator yields a trailing empty group, as in JS. -/
def splitChars (sep : Char) : List Char → List (List Char)
  | [] => [[]]
  | c :: cs =>
    if c = sep then [] :: splitChars sep cs
    else
      match splitChars sep cs with
      | [] => [[c]]
      | g :: gs => (c :: g) :: gs

/-- JS `path.split("/")` as a list of strings. -/
def splitSlash (p : String) : List String :=
  (splitChars '/' p.data).map String.mk

/-- `file.path.split("/").filter(Boolean)` from `buildFileTree`: split on
the separator and drop the empty segments. -/
def splitPath (p : String) : List String :=
  (splitSlash p).filter (fun seg => seg ≠ "")

/-- `parts.slice(0, index + 1).join("/")`: join segments with slashes. -/
def joinSlash : List String → String
  | [] => ""
  | [s] => s
  | s :: rest => s ++ "/" ++ joinSlash rest

/-- Does `hay` start with `needle`? (helper for the substring test). -/
def leadsWith : List Char → List Char → Bool
  | _, [] => true
  | [], _ :: _ => false
  | c :: cs, d :: ds => c == d && leadsWith cs ds

/-- Model of JS `hay.includes(needle)`: some suffix of `hay` starts with
`needle`.  `hay.includes("")` is `true`, as in JS. -/
def containsSub : List Char → List Char → Bool
  | [], needle => leadsWith [] needle
  | c :: t, needle => leadsWith (c :: t) needle || containsSub t needle

/-- JS `s.includes(sub)` on strings. -/
def strIncludes (s sub : String) : Bool := containsSub s.data sub.data

/-- Code-unit lexicographic `≤` on character lists: the model of
`a.localeCompare(b) <= 0` (ECMAScript fallback collation). -/
def lexLE : List Char → List Char → Bool
  | [], _ => true
  | _ :: _, [] => false
  | a :: as, b :: bs =>
    if a.toNat < b.toNat then true
    else if b.toNat < a.toNat then false
    else lexLE as bs

/-- Insert into a sorted list, keeping earlier elements first on ties:
one step of the sorting model for JS `Array.sort`. -/
def ordInsert {α : Type} (le : α → α → Bool) (x : α) : List α → List α
  | [] => [x]
  | y :: ys => if le x y then x :: y :: ys else y :: ordInsert le x ys

/-- Insertion sort: the model of JS `Array.sort(cmp)` (a sorted
permutation of the input under the comparator's ordering). -/
def sortList {α : Type} (le : α → α → Bool) : List α → List α
  | [] => []
  | x :: xs => ordInsert le x (sortList le xs)

/-- `type` field of a `ServerFile` (`"directory" | "file"`). -/
inductive FileType where
  | file
  | directory
deriving DecidableEq

/-- The `ServerFile` interface: one flat listing entry
`{path, name, type, size?, modified}`. -/
structure ServerFile where
  path : String
  name : String
  type : FileType
  size : Option Int
  modified : String
deriving DecidableEq

/-- A node of the file tree built by `buildFileTree`, minus its
`children` object (children live in the chain-keyed map). -/
structure TreeNode where
  name : String
  path : String
  type : FileType
  size : Option Int
  modified : String
deriving DecidableEq

/-- The file tree as a map from segment chains to nodes (association
list in creation order).  A chain `[a, b]` stands for the node reached
from the root through children `a` then `b` in the nested JS object. -/
abbrev FileTree := List (List String × TreeNode)

/-- First-match lookup of the node stored at a segment chain. -/
def lookupChain : FileTree → List String → Option TreeNode
  | [], _ => none
  | (k, n) :: t, key => if k = key then some n else lookupChain t key

/-- The walk of `buildFileTree` over one entry's remaining segments:
`pre` is the chain already walked, and at each segment the node is
created only when absent (`if (!current[part])`), a non-final segment as
a `directory` with `size: null` and the entry's `modified`, the final
segment with the entry's own `type` and `size`. -/
def insertParts (f : ServerFile) : FileTree → List String → List String → FileTree
  | acc, _, [] => acc
  | acc, pre, p :: rest =>
    let key := pre ++ [p]
    let acc' :=
      match lookupChain acc key with
      | some _ => acc
      | none =>
        acc ++ [(key,
          { name := p
            path := joinSlash key
            type := if rest.isEmpty then f.type else FileType.directory
            size := if rest.isEmpty then f.size else none
            modified := f.modified })]
    insertParts f acc' key rest

/-- Processing of one listing entry by `buildFileTree`'s
`files.forEach` body. -/
def insertEntry (t : FileTree) (f : ServerFile) : FileTree :=
  insertParts f t [] (splitPath f.path)

/-- `buildFileTree`: fold the flat listing into the tree. -/
def buildFileTree (files : List ServerFile) : FileTree :=
  files.foldl insertEntry []

/-- The children of the node at `chain`, in creation order: the model of
`Object.values(current)` on its `children` object. -/
def childrenOf (t : FileTree) (chain : List String) : List TreeNode :=
  (t.filter (fun e =>
    e.1.length == chain.length + 1 && e.1.take chain.length == chain)).map (fun e => e.2)

/-- The walk of `getCurrentFiles` succeeds when every prefix of the
current path's segment chain names an existing node. -/
def allPrefixesPresent (t : FileTree) (parts : List String) : Bool :=
  (List.range parts.length).all (fun i => (lookupChain t (parts.take (i + 1))).isSome)

/-- `getCurrentFiles`: resolve `currentPath` by descending child maps;
an unresolvable path yields `[]`, the root yields the root children. -/
def getCurrentFiles (t : FileTree) (currentPath : String) : List TreeNode :=
  let parts := splitPath currentPath
  if allPrefixesPresent t parts then childrenOf t parts else []

/-- The `.sort` comparator of `currentFiles` as a boolean `≤`:
`a` at-or-before `b` iff the JS comparator returns a non-positive value
(directories first, then `localeCompare` on names). -/
def nodeLeB (a b : TreeNode) : Bool :=
  if a.type == b.type then lexLE a.name.data b.name.data
  else a.type == FileType.directory

/-- The `.filter` predicate of `currentFiles`: keep everything on an
empty filter, else case-insensitive substring match on the name. -/
def nameFilter (fil : String) (f : TreeNode) : Bool :=
  fil == "" || strIncludes (toLowerStr f.name) (toLowerStr fil)

/-- `currentFiles`: the listing shown for `currentPath`, filtered then
sorted. -/
def currentFiles (t : FileTree) (currentPath fil : String) : List TreeNode :=
  sortList nodeLeB ((getCurrentFiles t currentPath).filter (nameFilter fil))

/-- The `textReadableExts` allow-list from `FilesExplorer`. -/
def textReadableExts : List String :=
  ["txt", "log", "cfg", "conf", "config", "ini", "json", "yml", "yaml",
   "properties", "csv", "md", "xml", "plugin", "skript", "lang"]

/-- `isTextReadable`: last `.`-separated component of the filename,
lowercased, must be non-empty (`!!ext`) and in the allow-list. -/
def isTextReadable (filename : String) : Bool :=
  match ((splitChars '.' filename.data).map String.mk).getLast? with
  | some ext => toLowerStr ext != "" && textReadableExts.contains (toLowerStr ext)
  | none => false

/-- `isReadable`: only files with a text-readable extension, and
`if (file.size && file.size > 5 * 1024 * 1024) return false` — the JS
truthiness test skips the size check when `size` is null or `0`. -/
def isReadable (f : ServerFile) : Bool :=
  if f.type != FileType.file then false
  else if !(isTextReadable f.name) then false
  else
    match f.size with
    | some sz => if sz != 0 && sz > 5 * 1024 * 1024 then false else true
    | none => true

/-- Observable outcome of `handleFileClick`: either navigation into a
directory, or the editor opened on a file with its read-only flag. -/
inductive OpenResult where
  | navigate (path : String)
  | editor (path : String) (readOnly : Bool)
deriving DecidableEq

/-- `handleFileClick`: directories navigate; files open the editor with
`editorReadOnly = !isReadable(file)` (unreadable files only get the
binary-preview placeholder, never an editable buffer). -/
def handleFileClick (f : ServerFile) : OpenResult :=
  if f.type = FileType.directory then OpenResult.navigate f.path
  else OpenResult.editor f.path (!(isReadable f))

/-- Clipboard `action` values (`"copy" | "cut"`). -/
inductive ClipAction where
  | copy
  | cut
deriving DecidableEq

/-- The clipboard state `{action: "copy"|"cut"|null, path: string|null}`. -/
structure Clipboard where
  action : Option ClipAction
  path : Option String
deriving DecidableEq

/-- A call issued to the external file backend by the explorer. -/
inductive BackendCall where
  | copyCall (src dst : String)
  | moveCall (src dst : String)
deriving DecidableEq

/-- Explorer state relevant to copy/cut/paste: the clipboard slot and
the trace of backend calls issued. -/
structure ExplorerState where
  clipboard : Clipboard
  calls : List BackendCall
deriving DecidableEq

/-- `handleCopy`: set the clipboard to `{copy, path}`. -/
def handleCopy (s : ExplorerState) (f : ServerFile) : ExplorerState :=
  { s with clipboard := ⟨some ClipAction.copy, some f.path⟩ }

/-- `handleCut`: set the clipboard to `{cut, path}`. -/
def handleCut (s : ExplorerState) (f : ServerFile) : ExplorerState :=
  { s with clipboard := ⟨some ClipAction.cut, some f.path⟩ }

/-- `clipboard.path.split("/").pop() || ""`. -/
def basename (p : String) : String := ((splitSlash p).getLast?).getD ""

/-- `handlePaste(destinationPath)`: a falsy clipboard path (null or the
empty string) or a null action is a no-op; otherwise the destination is
`destinationPath ? destinationPath + "/" + name : name`, a `copy` issues
a remote copy keeping the clipboard, a `cut` issues a remote move and
clears the clipboard. -/
def handlePaste (s : ExplorerState) (destinationPath : String) : ExplorerState :=
  match s.clipboard.path, s.clipboard.action with
  | some p, some act =>
    if p = "" then s
    else
      let name := basename p
      let target := if destinationPath ≠ "" then destinationPath ++ "/" ++ name else name
      match act with
      | ClipAction.copy => { s with calls := s.calls ++ [BackendCall.copyCall p target] }
      | ClipAction.cut =>
        { clipboard := ⟨none, none⟩, calls := s.calls ++ [BackendCall.moveCall p target] }
  | _, _ => s

/-- The sentinel string substituted by `uploadFile` for an empty target
directory. -/
def uploadSentinel : String :=
  "current_directory_super_long_because_empty_string_is_bad_and_also_if_there_were_someone_stupid_enough_to_name_a_folder_like_this_we_need_to_handle_it_properly"

/-- `uploadFile`'s target resolution:
`if (!targetPath || targetPath === "") targetPath = ...sentinel...`. -/
def resolveUploadTarget (targetPath : String) : String :=
  if targetPath = "" then uploadSentinel else targetPath

/-- The `ConsoleMessage` interface:
`{type: string, timestamp?, text?, data?}`. -/
structure ConsoleMessage where
  type : String
  timestamp : Option String
  text : Option String
  data : Option String
deriving DecidableEq

/-- JS `a || b` on two optional strings: `b` when `a` is absent or
empty. -/
def jsOrElse (a b : Option String) : Option String :=
  match a with
  | some s => if s ≠ "" then some s else b
  | none => b

/-- Template interpolation of an optional string: JS renders a missing
value as the text `undefined`. -/
def renderOpt : Option String → String
  | some s => s
  | none => "undefined"

/-- One line of `downloadLogs`'s transcript:
`[${msg.timestamp}] [${msg.type?.toUpperCase()}] ${msg.text || msg.data}`. -/
def exportLine (m : ConsoleMessage) : String :=
  "[" ++ renderOpt m.timestamp ++ "] [" ++ toUpperStr m.type ++ "] "
    ++ renderOpt (jsOrElse m.text m.data)

/-- `lines.join("\n")`. -/
def joinLines : List String → String
  | [] => ""
  | [s] => s
  | s :: rest => s ++ "\n" ++ joinLines rest

/-- The full `downloadLogs` transcript: one line per record, joined with
newlines. -/
def downloadLogsText (msgs : List ConsoleMessage) : String :=
  joinLines (msgs.map exportLine)

/-- Split a character list at its first `]`, returning the characters
before it and the remainder after it. -/
def takeUntilRB : List Char → Option (List Char × List Char)
  | [] => none
  | c :: cs =>
    if c = ']' then some ([], cs)
    else (takeUntilRB cs).map (fun q => (c :: q.1, q.2))

/-- Modelled from the spec: the repository ships no console-transcript
importer, so the parser for the `[ts] [TYPE] text` line pattern named by
the round-trip property is modelled from the spec's words — match a
bracketed timestamp, a space, a bracketed category, a space, and take
the rest of the line as the text. -/
def parseLine (s : String) : Option (String × String × String) :=
  match s.data with
  | [] => none
  | c0 :: rest =>
    if c0 = '[' then
      match takeUntilRB rest with
      | some (ts, r1) =>
        match r1 with
        | c1 :: c2 :: r2 =>
          if c1 = ' ' ∧ c2 = '[' then
            match takeUntilRB r2 with
            | some (ty, r3) =>
              match r3 with
              | c3 :: text =>
                if c3 = ' ' then some (String.mk ts, String.mk ty, String.mk text)
                else none
              | [] => none
            | none => none
          else none
        | _ => none
      | none => none
    else none


/-- The change event in a `file_update` envelope:
`{event: added|modified|deleted, path}`. -/
inductive FileChangeKind where
  | added
  | modified
  | deleted
deriving DecidableEq

/-- The `FileChangeEvent` interface. -/
structure FileChangeEvent where
  event : FileChangeKind
  path : String
deriving DecidableEq

/-- The `ServerDetails` record restricted to the fields the socket
handlers patch (`status` on a `status` envelope, `players` on a
`player_update` envelope); `info` replaces the whole record. -/
structure SDetails where
  status : String
  players : List String
deriving DecidableEq

/-- The inbound `SocketMessage` union, with each variant's payload. -/
inductive InboundMsg where
  | console (m : ConsoleMessage)
  | info (d : SDetails)
  | ping
  | needEula
  | errMsg (e : String)
  | status (v : String)
  | playerUpdate (ps : List String)
  | fileInit (fs : List ServerFile)
  | fileUpdate (fs : List ServerFile) (changes : List FileChangeEvent)
deriving DecidableEq

/-- The React state of the server-detail page that the socket handlers
touch, plus `outbox`, the trace of actions sent on the channel. -/
structure PageState where
  consoleOutput : List ConsoleMessage
  serverDetails : Option SDetails
  loading : Bool
  errorMsg : String
  actionInProgress : String
  showEulaModal : Bool
  files : List ServerFile
  socketOpen : Bool
  outbox : List String
deriving DecidableEq

/-- The initial page state (socket taken as already open so that the
dispatcher is observable). -/
def initialPage : PageState :=
  { consoleOutput := []
    serverDetails := none
    loading := true
    errorMsg := ""
    actionInProgress := ""
    showEulaModal := false
    files := []
    socketOpen := true
    outbox := [] }

/-- The `ws.onmessage` switch: one state owner per envelope type.  Note
that both `file_init` and `file_update` run `setFiles(data.data)` — the
`file_update` case replaces the listing with the envelope's full `data`
field and never touches its `changes` list. -/
def onMessage (s : PageState) : InboundMsg → PageState
  | InboundMsg.console m => { s with consoleOutput := s.consoleOutput ++ [m] }
  | InboundMsg.info d => { s with serverDetails := some d, loading := false }
  | InboundMsg.ping => { s with outbox := s.outbox ++ ["pong"] }
  | InboundMsg.needEula => { s with showEulaModal := true }
  | InboundMsg.errMsg e => { s with errorMsg := if e ≠ "" then e else "An error occurred" }
  | InboundMsg.status v =>
    let s1 := { s with serverDetails := s.serverDetails.map (fun d => { d with status := v }) }
    if v = "online" ∨ v = "offline" then { s1 with actionInProgress := "" } else s1
  | InboundMsg.playerUpdate ps =>
    { s with serverDetails := s.serverDetails.map (fun d => { d with players := ps }) }
  | InboundMsg.fileInit fs => { s with files := fs }
  | InboundMsg.fileUpdate fs _ => { s with files := fs }

/-- Fold a sequence of inbound envelopes through the dispatcher in
arrival order. -/
def runMessages (s : PageState) (ms : List InboundMsg) : PageState :=
  ms.foldl onMessage s

/-- Does this envelope clear `actionInProgress`?  Only a `status`
envelope whose value is `online` or `offline`. -/
def clearsActionFlag : InboundMsg → Bool
  | InboundMsg.status v => v == "online" || v == "offline"
  | _ => false

/-- The synchronizer's file listing after `file_init` with `initFiles`
followed by the given `file_update`s (each a full listing paired with
its change list). -/
def syncFiles (initFiles : List ServerFile)
    (updates : List (List ServerFile × List FileChangeEvent)) : List ServerFile :=
  (runMessages initialPage
    (InboundMsg.fileInit initFiles ::
      updates.map (fun u => InboundMsg.fileUpdate u.1 u.2))).files

/-- Definition following the spec's words, for comparison with the code:
apply one `{kind, path}` change to a path set — `added`/`modified`
insert the path, `deleted` removes it. -/
def specApplyChange (ps : List String) (c : FileChangeEvent) : List String :=
  match c.event with
  | FileChangeKind.added => if ps.contains c.path then ps else ps ++ [c.path]
  | FileChangeKind.modified => if ps.contains c.path then ps else ps ++ [c.path]
  | FileChangeKind.deleted => ps.filter (fun p => p ≠ c.path)

/-- Definition following the spec's words: the path set after
`file_init` plus every subsequent change applied in arrival order. -/
def specPathsAfter (initFiles : List ServerFile)
    (updates : List (List ServerFile × List FileChangeEvent)) : List String :=
  updates.foldl (fun ps u => u.2.foldl specApplyChange ps) (initFiles.map (fun f => f.path))

/-- The three lifecycle actions. -/
inductive LifecycleAction where
  | start
  | stop
  | restart
deriving DecidableEq

/-- The action name sent on the channel. -/
def lifecycleActionName : LifecycleAction → String
  | LifecycleAction.start => "start"
  | LifecycleAction.stop => "stop"
  | LifecycleAction.restart => "restart"

/-- The `actionInProgress` value each handler sets. -/
def lifecycleFlag : LifecycleAction → String
  | LifecycleAction.start => "starting"
  | LifecycleAction.stop => "stopping"
  | LifecycleAction.restart => "restarting"

/-- `startServer`/`stopServer`/`restartServer`:
`if (actionInProgress || !socket) return;` then set the flag and send
the action.  (The `catch` branch for a throwing `socket.send` is not
modelled; sends are taken as succeeding.) -/
def doLifecycle (s : PageState) (a : LifecycleAction) : PageState :=
  if s.actionInProgress ≠ "" ∨ s.socketOpen = false then s
  else { s with actionInProgress := lifecycleFlag a
                outbox := s.outbox ++ [lifecycleActionName a] }

/-- Channel-manager state for the reconnect discipline:
`pendingTimers` counts outstanding scheduled reconnect timeouts and
`reconnecting` is `isReconnectingRef.current`. -/
structure ChannelState where
  pendingTimers : Nat
  reconnecting : Bool
deriving DecidableEq

/-- Events of the close/reconnect discipline: a socket close with its
code, the reconnect timer firing, and view teardown.  (`ws.onopen`
resets the flag only for a freshly created socket; the effect guard
`if (socket || isReconnectingRef.current) return` prevents creating one
while a reconnect is pending, so no open event can race the timer.) -/
inductive ChannelEvent where
  | close (code : Nat)
  | timerFire
  | teardown
deriving DecidableEq

/-- `ws.onclose` / the timer callback / the effect cleanup:
an abnormal close (`code !== 1000`) with the guard flag clear schedules
one timer and sets the flag; the timer firing clears both; teardown
(`clearTimeout`) cancels any pending timer. -/
def stepChannel (s : ChannelState) : ChannelEvent → ChannelState
  | ChannelEvent.close code =>
    if code ≠ 1000 ∧ s.reconnecting = false then
      { pendingTimers := s.pendingTimers + 1, reconnecting := true }
    else s
  | ChannelEvent.timerFire =>
    if s.pendingTimers > 0 then
      { pendingTimers := s.pendingTimers - 1, reconnecting := false }
    else s
  | ChannelEvent.teardown => { s with pendingTimers := 0 }

/-- The channel state reached from the initial state (no timer, flag
clear) by a sequence of events. -/
def runChannel (evs : List ChannelEvent) : ChannelState :=
  evs.foldl stepChannel ⟨0, false⟩

/-! ## Lemmas about the tree construction -/

theorem lookupChain_append (a b : FileTree) (k : List String) :
    lookupChain (a ++ b) k =
      match lookupChain a k with
      | some n => some n
      | none => lookupChain b k := by
  induction a with
  | nil => rfl
  | cons e t ih =>
    obtain ⟨k', n⟩ := e
    by_cases hk : k' = k
    · simp [lookupChain, hk]
    · simp [lookupChain, hk, ih]

theorem insertParts_preserve (f : ServerFile) (rest : List String) :
    ∀ (acc : FileTree) (pre k : List String) (n : TreeNode),
      lookupChain acc k = some n →
      lookupChain (insertParts f acc pre rest) k = some n := by
  induction rest with
  | nil => intro acc pre k n h; simpa [insertParts] using h
  | cons p rest ih =>
    intro acc pre k n h
    rw [insertParts]
    apply ih
    cases hl : lookupChain acc (pre ++ [p]) with
    | some m => simpa [hl] using h
    | none => simp [hl, lookupChain_append, h]

theorem insertParts_creates (f : ServerFile) :
    ∀ (rest : List String) (acc : FileTree) (pre : List String) (j : Nat),
      j < rest.length →
      lookupChain acc (pre ++ rest.take (j + 1)) = none →
      lookupChain (insertParts f acc pre rest) (pre ++ rest.take (j + 1)) =
        some { name := rest.getD j ""
               path := joinSlash (pre ++ rest.take (j + 1))
               type := if j = rest.length - 1 then f.type else FileType.directory
               size := if j = rest.length - 1 then f.size else none
               modified := f.modified } := by
  intro rest
  induction rest with
  | nil => intro acc pre j hj; exact absurd hj (by simp)
  | cons p rest ih =>
    intro acc pre j hj habs
    cases j with
    | zero =>
      have hkey : pre ++ (p :: rest).take 1 = pre ++ [p] := by simp
      rw [hkey] at habs ⊢
      rw [insertParts, habs]
      apply insertParts_preserve
      simp only [lookupChain_append, habs]
      have hemp : rest.isEmpty = decide (0 = (p :: rest).length - 1) := by
        cases rest <;> simp
      cases rest with
      | nil => simp [lookupChain, List.getD]
      | cons q rest' => simp [lookupChain, List.getD]
    | succ j' =>
      have hkey : pre ++ (p :: rest).take (j' + 2) = (pre ++ [p]) ++ rest.take (j' + 1) := by
        simp
      rw [hkey] at habs ⊢
      rw [insertParts]
      have hj' : j' < rest.length := by simpa using hj
      have hgetD : (p :: rest).getD (j' + 1) "" = rest.getD j' "" := by
        simp [List.getD]
      have hlast : (j' = rest.length - 1) = (j' + 1 = rest.length) :=
        propext ⟨fun h => by omega, fun h => by omega⟩
      cases hl : lookupChain acc (pre ++ [p]) with
      | some m =>
        have := ih acc (pre ++ [p]) j' hj' habs
        simpa [hgetD, hlast] using this
      | none =>
        have habs' :
            lookupChain (acc ++ [((pre ++ [p]),
              { name := p
                path := joinSlash (pre ++ [p])
                type := if rest.isEmpty then f.type else FileType.directory
                size := if rest.isEmpty then f.size else none
                modified := f.modified })]) ((pre ++ [p]) ++ rest.take (j' + 1)) = none := by
          simp only [lookupChain_append, habs]
          have hne : ¬ (pre ++ [p] = (pre ++ [p]) ++ rest.take (j' + 1)) := by
            intro he
            have hlen := congrArg List.length he
            have htk : (rest.take (j' + 1)).length = j' + 1 := by
              rw [List.length_take]
              omega
            simp [htk] at hlen
          have hrest : rest ≠ [] := by
            intro h
            rw [h] at hj'
            simp at hj'
          simp [lookupChain, hne, hrest]
        have := ih _ (pre ++ [p]) j' hj' habs'
        simpa [hgetD, hlast] using this

theorem insertEntry_preserve (t : FileTree) (f : ServerFile) (k : List String) (n : TreeNode)
    (h : lookupChain t k = some n) : lookupChain (insertEntry t f) k = some n :=
  insertParts_preserve f (splitPath f.path) t [] k n h

/-- C2: reconstruction splits each entry's path on its separator,
discards empty segments, and walking the segment chain creates any
missing intermediate node as a directory that carries no size and
inherits only the `modified` timestamp of the triggering entry. -/
theorem implicit_directory_creation (t : FileTree) (f : ServerFile) (i : Nat)
    (hi : i + 1 < (splitPath f.path).length)
    (habs : lookupChain t ((splitPath f.path).take (i + 1)) = none) :
    lookupChain (insertEntry t f) ((splitPath f.path).take (i + 1)) =
      some { name := (splitPath f.path).getD i ""
             path := joinSlash ((splitPath f.path).take (i + 1))
             type := FileType.directory
             size := none
             modified := f.modified } := by
  have h := insertParts_creates f (splitPath f.path) t [] i (by omega) (by simpa using habs)
  have hne : ¬ (i = (splitPath f.path).length - 1) := by omega
  simpa [insertEntry, hne] using h

/-- Witness for C2: inserting `a/b/c.txt` into the empty tree creates
the missing intermediate node `a` as a directory with no size and the
entry's timestamp. -/
theorem implicit_directory_creation_witness :
    (0 + 1 < (splitPath "a/b/c.txt").length ∧
      lookupChain [] ((splitPath "a/b/c.txt").take (0 + 1)) = none) ∧
    lookupChain
        (insertEntry [] { path := "a/b/c.txt", name := "c.txt", type := FileType.file,
                          size := some 3, modified := "T" })
        ((splitPath "a/b/c.txt").take (0 + 1)) =
      some { name := "a", path := "a", type := FileType.directory,
             size := none, modified := "T" } :=
  ⟨⟨by decide, by decide⟩,
    implicit_directory_creation []
      { path := "a/b/c.txt", name := "c.txt", type := FileType.file,
        size := some 3, modified := "T" } 0 (by decide) (by decide)⟩

/-- C10: the first listing entry whose walk creates a node at a chain
permanently determines that node's record for the build — processing any
further entries never overwrites its `type`, `size` or `modified`. -/
theorem first_creation_wins (pre post : List ServerFile) (k : List String) (n : TreeNode)
    (h : lookupChain (buildFileTree pre) k = some n) :
    lookupChain (buildFileTree (pre ++ post)) k = some n := by
  have hfold : ∀ (l : List ServerFile) (t : FileTree), lookupChain t k = some n →
      lookupChain (l.foldl insertEntry t) k = some n := by
    intro l
    induction l with
    | nil => intro t ht; simpa using ht
    | cons g gs ih => intro t ht; exact ih _ (insertEntry_preserve t g k n ht)
  rw [buildFileTree, List.foldl_append]
  exact hfold post _ h

/-- Witness for C10: `a` is first created implicitly (directory, no
size, timestamp `t1`); a later listing entry for path `a` with its own
size and timestamp does not overwrite it. -/
theorem first_creation_wins_witness :
    lookupChain
        (buildFileTree [{ path := "a/b.txt", name := "b.txt", type := FileType.file,
                          size := some 1, modified := "t1" }]) ["a"] =
      some { name := "a", path := "a", type := FileType.directory,
             size := none, modified := "t1" } ∧
    lookupChain
        (buildFileTree
          ([{ path := "a/b.txt", name := "b.txt", type := FileType.file,
              size := some 1, modified := "t1" }] ++
           [{ path := "a", name := "a", type := FileType.directory,
              size := some 7, modified := "t2" }])) ["a"] =
      some { name := "a", path := "a", type := FileType.directory,
             size := none, modified := "t1" } :=
  ⟨by decide,
    first_creation_wins
      [{ path := "a/b.txt", name := "b.txt", type := FileType.file,
         size := some 1, modified := "t1" }]
      [{ path := "a", name := "a", type := FileType.directory,
         size := some 7, modified := "t2" }]
      ["a"]
      { name := "a", path := "a", type := FileType.directory,
        size := none, modified := "t1" }
      (by decide)⟩

/-- Counterexample for C1: a `file_update` whose change list says
`added "x"` but whose full `data` listing omits `x`.  The spec-side path
set contains `x`; the synchronizer's listing (which only stores the
`data` field and ignores `changes`) does not. -/
theorem file_update_ignores_changes_cex :
    "x" ∈ specPathsAfter [] [([], [{ event := FileChangeKind.added, path := "x" }])] ∧
    "x" ∉ (syncFiles [] [([], [{ event := FileChangeKind.added, path := "x" }])]).map
      (fun f => f.path) := by
  decide

/-- C1 (amended): after `file_init` and any sequence of `file_update`s,
the synchronizer's listing equals the full `data` listing of the most
recent message; the ordered change lists are never applied by the
client. -/
theorem sync_listing_is_last_data (initFiles : List ServerFile)
    (updates : List (List ServerFile × List FileChangeEvent)) :
    syncFiles initFiles updates =
      match updates.getLast? with
      | none => initFiles
      | some u => u.1 := by
  have key : ∀ (us : List (List ServerFile × List FileChangeEvent)) (s : PageState),
      (runMessages s (us.map (fun u => InboundMsg.fileUpdate u.1 u.2))).files =
        match us.getLast? with
        | none => s.files
        | some u => u.1 := by
    intro us
    induction us with
    | nil => intro s; rfl
    | cons u us ih =>
      intro s
      cases us with
      | nil => simp [runMessages, onMessage]
      | cons v t =>
        have h := ih (onMessage s (InboundMsg.fileUpdate u.1 u.2))
        simp only [List.map_cons, runMessages, List.foldl_cons] at h ⊢
        rw [h]
        rfl
  have h := key updates (onMessage initialPage (InboundMsg.fileInit initFiles))
  simpa [syncFiles, runMessages, onMessage] using h

/-- C6: a lifecycle action issued while `actionInProgress` is set is
rejected with no state change and nothing sent on the channel, and the
flag is cleared exactly by a `status` envelope whose value is `online`
or `offline`. -/
theorem lifecycle_flag_discipline :
    (∀ (s : PageState) (a : LifecycleAction),
      s.actionInProgress ≠ "" → doLifecycle s a = s) ∧
    (∀ (s : PageState) (m : InboundMsg),
      (onMessage s m).actionInProgress =
        if clearsActionFlag m then "" else s.actionInProgress) := by
  constructor
  · intro s a h
    simp [doLifecycle, h]
  · intro s m
    cases m with
    | status v =>
      by_cases h : v = "online" ∨ v = "offline"
      · simp [onMessage, clearsActionFlag, h]
      · push_neg at h
        simp [onMessage, clearsActionFlag, h.1, h.2]
    | console m => simp [onMessage, clearsActionFlag]
    | info d => simp [onMessage, clearsActionFlag]
    | ping => simp [onMessage, clearsActionFlag]
    | needEula => simp [onMessage, clearsActionFlag]
    | errMsg e => simp [onMessage, clearsActionFlag]
    | playerUpdate ps => simp [onMessage, clearsActionFlag]
    | fileInit fs => simp [onMessage, clearsActionFlag]
    | fileUpdate fs cs => simp [onMessage, clearsActionFlag]

/-- Witness for C6: with the flag at `starting`, a `start` is a no-op,
and a `status: online` envelope clears the flag. -/
theorem lifecycle_flag_discipline_witness :
    ({ initialPage with actionInProgress := "starting" } : PageState).actionInProgress ≠ "" ∧
    doLifecycle { initialPage with actionInProgress := "starting" } LifecycleAction.start =
      { initialPage with actionInProgress := "starting" } ∧
    (onMessage { initialPage with actionInProgress := "starting" }
      (InboundMsg.status "online")).actionInProgress = "" :=
  ⟨by decide,
   lifecycle_flag_discipline.1 { initialPage with actionInProgress := "starting" }
     LifecycleAction.start (by decide),
   by
     have h := lifecycle_flag_discipline.2 { initialPage with actionInProgress := "starting" }
       (InboundMsg.status "online")
     simpa [clearsActionFlag] using h⟩

/-- C5: in every reachable channel state at most one reconnect timer is
pending; an abnormal close with the guard flag clear schedules exactly
one timer and sets the flag; an abnormal close with the flag set, or any
close with the normal code 1000, schedules nothing; teardown cancels any
pending timer. -/
theorem single_reconnect_timer (evs : List ChannelEvent) (s t : ChannelState) (c : Nat)
    (hc : c ≠ 1000) (hs : s.reconnecting = true) (ht : t.reconnecting = false) :
    (runChannel evs).pendingTimers ≤ 1 ∧
    stepChannel s (ChannelEvent.close c) = s ∧
    (stepChannel t (ChannelEvent.close c)).pendingTimers = t.pendingTimers + 1 ∧
    (stepChannel t (ChannelEvent.close c)).reconnecting = true ∧
    stepChannel s (ChannelEvent.close 1000) = s ∧
    stepChannel t (ChannelEvent.close 1000) = t ∧
    (stepChannel s ChannelEvent.teardown).pendingTimers = 0 := by
  have inv : ∀ (l : List ChannelEvent) (st : ChannelState),
      st.pendingTimers ≤ 1 → (st.pendingTimers = 1 → st.reconnecting = true) →
      (l.foldl stepChannel st).pendingTimers ≤ 1 ∧
        ((l.foldl stepChannel st).pendingTimers = 1 →
          (l.foldl stepChannel st).reconnecting = true) := by
    intro l
    induction l with
    | nil => intro st h1 h2; exact ⟨h1, h2⟩
    | cons e rest ih =>
      intro st h1 h2
      rw [List.foldl_cons]
      cases e with
      | close code =>
        by_cases hcd : code ≠ 1000 ∧ st.reconnecting = false
        · have hz : st.pendingTimers = 0 := by
            by_contra hnz
            have h1' : st.pendingTimers = 1 := by omega
            rw [h2 h1'] at hcd
            exact absurd hcd.2 (by simp)
          refine ih _ ?_ ?_ <;> simp [stepChannel, hcd, hz]
        · refine ih _ ?_ ?_ <;> simp only [stepChannel, if_neg hcd]
          · exact h1
          · exact h2
      | timerFire =>
        by_cases hp : st.pendingTimers > 0
        · refine ih _ ?_ ?_
          · simp only [stepChannel, if_pos hp]
            omega
          · simp only [stepChannel, if_pos hp]
            intro hx
            exfalso
            omega
        · refine ih _ ?_ ?_ <;> simp only [stepChannel, if_neg hp]
          · exact h1
          · exact h2
      | teardown =>
        refine ih _ ?_ ?_ <;> simp [stepChannel]
  refine ⟨(inv evs ⟨0, false⟩ (by simp) (by simp)).1, ?_, ?_, ?_, ?_, ?_, ?_⟩
  · simp [stepChannel, hs]
  · simp [stepChannel, hc, ht]
  · simp [stepChannel, hc, ht]
  · simp [stepChannel, hs]
  · simp [stepChannel]
  · simp [stepChannel]

/-- Witness for C5: a burst of two abnormal closes leaves one pending
timer, and the remaining conjuncts at concrete states. -/
theorem single_reconnect_timer_witness :
    (1006 : Nat) ≠ 1000 ∧
    (runChannel [ChannelEvent.close 1006, ChannelEvent.close 1006]).pendingTimers ≤ 1 ∧
    stepChannel ⟨1, true⟩ (ChannelEvent.close 1006) = ⟨1, true⟩ ∧
    (stepChannel ⟨0, false⟩ ChannelEvent.teardown).pendingTimers = 0 :=
  ⟨by decide,
   (single_reconnect_timer [ChannelEvent.close 1006, ChannelEvent.close 1006]
     ⟨1, true⟩ ⟨0, false⟩ 1006 (by decide) rfl rfl).1,
   (single_reconnect_timer [] ⟨1, true⟩ ⟨0, false⟩ 1006 (by decide) rfl rfl).2.1,
   by decide⟩

/-- C7: paste after copy targets `targetDir/basename(source)`, issues a
remote copy and keeps the clipboard (repeatable); paste after cut issues
a remote move and clears the clipboard, so a second paste is a no-op;
paste with an empty clipboard never contacts the backend. -/
theorem paste_semantics (s : ExplorerState) (f : ServerFile) (d : String)
    (hf : f.path ≠ "") (hd : d ≠ "") :
    (handlePaste (handleCopy s f) d).calls =
      s.calls ++ [BackendCall.copyCall f.path (d ++ "/" ++ basename f.path)] ∧
    (handlePaste (handleCopy s f) d).clipboard = (handleCopy s f).clipboard ∧
    (handlePaste (handlePaste (handleCopy s f) d) d).calls =
      s.calls ++ [BackendCall.copyCall f.path (d ++ "/" ++ basename f.path),
                  BackendCall.copyCall f.path (d ++ "/" ++ basename f.path)] ∧
    (handlePaste (handleCut s f) d).calls =
      s.calls ++ [BackendCall.moveCall f.path (d ++ "/" ++ basename f.path)] ∧
    (handlePaste (handleCut s f) d).clipboard = ⟨none, none⟩ ∧
    handlePaste (handlePaste (handleCut s f) d) d = handlePaste (handleCut s f) d ∧
    (∀ (s0 : ExplorerState) (d0 : String),
      s0.clipboard.action = none ∨ s0.clipboard.path = none → handlePaste s0 d0 = s0) := by
  refine ⟨?_, ?_, ?_, ?_, ?_, ?_, ?_⟩
  · simp [handlePaste, handleCopy, hf, hd]
  · simp [handlePaste, handleCopy, hf, hd]
  · simp [handlePaste, handleCopy, hf, hd]
  · simp [handlePaste, handleCut, hf, hd]
  · simp [handlePaste, handleCut, hf, hd]
  · simp [handlePaste, handleCut, hf, hd]
  · intro s0 d0 h
    cases hp : s0.clipboard.path with
    | none => simp [handlePaste, hp]
    | some p =>
      cases ha : s0.clipboard.action with
      | none => simp [handlePaste, hp, ha]
      | some act =>
        rcases h with h | h
        · rw [ha] at h; exact absurd h (by simp)
        · rw [hp] at h; exact absurd h (by simp)

/-- Witness for C7: cut then paste moves `dir/file.txt` to
`dest/file.txt` and clears the clipboard. -/
theorem paste_semantics_witness :
    ("dir/file.txt" : String) ≠ "" ∧ ("dest" : String) ≠ "" ∧
    (handlePaste (handleCut ⟨⟨none, none⟩, []⟩
        { path := "dir/file.txt", name := "file.txt", type := FileType.file,
          size := some 1, modified := "T" }) "dest").calls =
      [BackendCall.moveCall "dir/file.txt" "dest/file.txt"] ∧
    (handlePaste (handleCut ⟨⟨none, none⟩, []⟩
        { path := "dir/file.txt", name := "file.txt", type := FileType.file,
          size := some 1, modified := "T" }) "dest").clipboard = ⟨none, none⟩ := by
  have h := paste_semantics ⟨⟨none, none⟩, []⟩
    { path := "dir/file.txt", name := "file.txt", type := FileType.file,
      size := some 1, modified := "T" } "dest" (by decide) (by decide)
  exact ⟨by decide, by decide, by simpa [basename] using h.2.2.2.1, h.2.2.2.2.1⟩

/-- C8: a file is text-editable only if its extension is in the fixed
allow-list and any present size is at most 5 MiB; a directory click
never opens an editor, and a click on any non-readable file opens the
editor with the read-only flag set (binary preview only). -/
theorem readability_policy (f : ServerFile) :
    (isReadable f = true →
      isTextReadable f.name = true ∧ ∀ sz : Int, f.size = some sz → sz ≤ 5 * 1024 * 1024) ∧
    (f.type = FileType.directory → handleFileClick f = OpenResult.navigate f.path) ∧
    (f.type = FileType.file → isReadable f = false →
      handleFileClick f = OpenResult.editor f.path true) := by
  refine ⟨?_, ?_, ?_⟩
  · intro h
    cases hft : f.type with
    | directory => rw [isReadable, hft] at h; simp at h
    | file =>
      rw [isReadable, hft] at h
      simp only [bne_self_eq_false, Bool.false_eq_true, if_false] at h
      by_cases htr : isTextReadable f.name
      · refine ⟨htr, ?_⟩
        intro sz hsz
        rw [htr] at h
        simp only [Bool.not_true, Bool.false_eq_true, if_false] at h
        rw [hsz] at h
        by_contra hgt
        push_neg at hgt
        have hz : sz ≠ 0 := by omega
        simp [hz, hgt] at h
        omega
      · rw [eq_false_of_ne_true htr] at h
        simp at h
  · intro h
    simp [handleFileClick, h]
  · intro hft hr
    rw [handleFileClick, hft]
    simp [hr]

/-- Witness for C8: a 1-byte file with a non-allow-listed extension is
not readable and opens read-only. -/
theorem readability_policy_witness :
    ({ path := "x.bin", name := "x.bin", type := FileType.file,
       size := some 1, modified := "T" } : ServerFile).type = FileType.file ∧
    isReadable { path := "x.bin", name := "x.bin", type := FileType.file,
                 size := some 1, modified := "T" } = false ∧
    handleFileClick { path := "x.bin", name := "x.bin", type := FileType.file,
                      size := some 1, modified := "T" } = OpenResult.editor "x.bin" true :=
  ⟨rfl, by decide,
   (readability_policy { path := "x.bin", name := "x.bin", type := FileType.file,
                         size := some 1, modified := "T" }).2.2 rfl (by decide)⟩

/-- C9: an upload into the tree root (empty target path) resolves to the
reserved non-empty sentinel, and every non-empty target passes through
unchanged, so the request path never gets an empty target segment. -/
theorem upload_target_resolution (t : String) (ht : t ≠ "") :
    resolveUploadTarget "" = uploadSentinel ∧
    resolveUploadTarget t = t ∧
    resolveUploadTarget t ≠ "" ∧
    uploadSentinel ≠ "" := by
  refine ⟨by simp [resolveUploadTarget], ?_, ?_, by decide⟩
  · simp [resolveUploadTarget, ht]
  · simp [resolveUploadTarget, ht]

/-- Witness for C9: a concrete non-empty target passes through. -/
theorem upload_target_resolution_witness :
    ("plugins" : String) ≠ "" ∧ resolveUploadTarget "plugins" = "plugins" :=
  ⟨by decide, (upload_target_resolution "plugins" (by decide)).2.1⟩

/-! ## Lemmas about the console export -/

theorem data_append (a b : String) : (a ++ b).data = a.data ++ b.data := by
  cases a
  cases b
  rfl

theorem mk_data (s : String) : String.mk s.data = s := by
  cases s
  rfl

theorem takeUntilRB_split (l r : List Char) (hl : (']' : Char) ∉ l) :
    takeUntilRB (l ++ ']' :: r) = some (l, r) := by
  induction l with
  | nil => simp [takeUntilRB]
  | cons c cs ih =>
    have hc : c ≠ ']' := by
      intro h
      exact hl (by simp [h])
    have hcs : (']' : Char) ∉ cs := by
      intro h
      exact hl (by simp [h])
    simp [takeUntilRB, hc, ih hcs]

/-- Counterexample for C4: the exported category is uppercased, so the
parse of an exported line yields `INFO` for a record whose type is
`info` — the original `(timestamp, type, text)` triple is not recovered
verbatim. -/
theorem console_roundtrip_cex :
    parseLine (exportLine { type := "info", timestamp := some "12:00:00",
                            text := some "Server started", data := none }) =
      some ("12:00:00", "INFO", "Server started") ∧
    parseLine (exportLine { type := "info", timestamp := some "12:00:00",
                            text := some "Server started", data := none }) ≠
      some ("12:00:00", "info", "Server started") := by
  constructor
  · decide
  · decide

/-- C4 (amended): each record exports as the literal line
`[{timestamp}] [{TYPE}] {text}` with the category uppercased, and for
every record with a present `]`-free timestamp, a category that stays
`]`-free after uppercasing, and non-empty text, parsing that line
recovers the timestamp and text exactly and the category as the
uppercased type. -/
theorem console_export_roundtrip (m : ConsoleMessage) (ts t : String)
    (hts : m.timestamp = some ts) (hnts : (']' : Char) ∉ ts.data)
    (hnty : (']' : Char) ∉ (toUpperStr m.type).data)
    (htext : m.text = some t) (ht : t ≠ "") :
    parseLine (exportLine m) = some (ts, toUpperStr m.type, t) := by
  have e1 : exportLine m = "[" ++ ts ++ ("] [" ++ (toUpperStr m.type ++ ("] " ++ t))) := by
    simp [exportLine, hts, htext, jsOrElse, ht, renderOpt]
    simp [String.ext_iff, data_append, List.append_assoc]
  have d1 : ("[" : String).data = ['['] := rfl
  have d2 : ("] [" : String).data = [']', ' ', '['] := rfl
  have d3 : ("] " : String).data = [']', ' '] := rfl
  have hdata : (exportLine m).data =
      '[' :: (ts.data ++ ']' :: ' ' :: '[' :: ((toUpperStr m.type).data ++ ']' :: ' ' :: t.data)) := by
    rw [e1]
    simp [data_append, d1, d2, d3]
  have h1 := takeUntilRB_split ts.data
    (' ' :: '[' :: ((toUpperStr m.type).data ++ ']' :: ' ' :: t.data)) hnts
  have h2 := takeUntilRB_split (toUpperStr m.type).data (' ' :: t.data) hnty
  simp [parseLine, hdata, h1, h2, mk_data]

/-- Witness for C4 (amended): a concrete record round-trips up to the
uppercased category. -/
theorem console_export_roundtrip_witness :
    ((']' : Char) ∉ ("12:00" : String).data ∧
     (']' : Char) ∉ (toUpperStr "info").data ∧
     ("hi" : String) ≠ "") ∧
    parseLine (exportLine { type := "info", timestamp := some "12:00",
                            text := some "hi", data := none }) =
      some ("12:00", toUpperStr "info", "hi") :=
  ⟨⟨by decide, by decide, by decide⟩,
   console_export_roundtrip
     { type := "info", timestamp := some "12:00", text := some "hi", data := none }
     "12:00" "hi" rfl (by decide) (by decide) rfl (by decide)⟩

/-! ## Lemmas about the sorting model -/

theorem mem_ordInsert {α : Type} (le : α → α → Bool) (x : α) (l : List α) (a : α) :
    a ∈ ordInsert le x l ↔ a = x ∨ a ∈ l := by
  induction l with
  | nil => simp [ordInsert]
  | cons y ys ih =>
    by_cases h : le x y
    · simp [ordInsert, h]
    · simp [ordInsert, h, ih]
      tauto

theorem pairwise_ordInsert {α : Type} (le : α → α → Bool)
    (htot : ∀ a b, le a b = true ∨ le b a = true)
    (htrans : ∀ a b c, le a b = true → le b c = true → le a c = true)
    (x : α) (l : List α) (h : l.Pairwise (fun a b => le a b = true)) :
    (ordInsert le x l).Pairwise (fun a b => le a b = true) := by
  induction l with
  | nil => simp [ordInsert]
  | cons y ys ih =>
    rcases List.pairwise_cons.1 h with ⟨hy, hys⟩
    by_cases hxy : le x y = true
    · rw [ordInsert, if_pos hxy]
      refine List.pairwise_cons.2 ⟨?_, h⟩
      intro z hz
      rcases List.mem_cons.1 hz with rfl | hz'
      · exact hxy
      · exact htrans x y z hxy (hy z hz')
    · rw [ordInsert, if_neg hxy]
      refine List.pairwise_cons.2 ⟨?_, ih hys⟩
      intro z hz
      rcases (mem_ordInsert le x ys z).1 hz with rfl | hz'
      · rcases htot z y with hh | hh
        · exact absurd hh hxy
        · exact hh
      · exact hy z hz'

theorem perm_ordInsert {α : Type} (le : α → α → Bool) (x : α) (l : List α) :
    (ordInsert le x l).Perm (x :: l) := by
  induction l with
  | nil => exact List.Perm.refl _
  | cons y ys ih =>
    by_cases h : le x y
    · rw [ordInsert, if_pos h]
    · rw [ordInsert, if_neg h]
      exact (List.Perm.cons y ih).trans (List.Perm.swap x y ys)

theorem pairwise_sortList {α : Type} (le : α → α → Bool)
    (htot : ∀ a b, le a b = true ∨ le b a = true)
    (htrans : ∀ a b c, le a b = true → le b c = true → le a c = true)
    (l : List α) :
    (sortList le l).Pairwise (fun a b => le a b = true) := by
  induction l with
  | nil => simp [sortList]
  | cons x xs ih => exact pairwise_ordInsert le htot htrans x _ ih

theorem perm_sortList {α : Type} (le : α → α → Bool) (l : List α) :
    (sortList le l).Perm l := by
  induction l with
  | nil => exact List.Perm.refl _
  | cons x xs ih => exact (perm_ordInsert le x (sortList le xs)).trans (List.Perm.cons x ih)

theorem lexLE_total : ∀ (a b : List Char), lexLE a b = true ∨ lexLE b a = true := by
  intro a
  induction a with
  | nil => intro b; exact Or.inl rfl
  | cons c cs ih =>
    intro b
    cases b with
    | nil => exact Or.inr rfl
    | cons d ds =>
      by_cases h1 : c.toNat < d.toNat
      · left; simp [lexLE, h1]
      · by_cases h2 : d.toNat < c.toNat
        · right; simp [lexLE, h2]
        · rcases ih ds with hh | hh
          · left; simp [lexLE, h1, h2, hh]
          · right; simp [lexLE, h1, h2, hh]

theorem lexLE_trans :
    ∀ (a b c : List Char), lexLE a b = true → lexLE b c = true → lexLE a c = true := by
  intro a
  induction a with
  | nil => intro b c h1 h2; rfl
  | cons x xs ih =>
    intro b c h1 h2
    cases b with
    | nil => simp [lexLE] at h1
    | cons y ys =>
      cases c with
      | nil => simp [lexLE] at h2
      | cons z zs =>
        simp only [lexLE] at h1 h2 ⊢
        by_cases hxy : x.toNat < y.toNat
        · by_cases hyz : y.toNat < z.toNat
          · have hxz : x.toNat < z.toNat := by omega
            simp [hxz]
          · by_cases hzy : z.toNat < y.toNat
            · rw [if_neg hyz, if_pos hzy] at h2
              exact absurd h2 (by simp)
            · have hxz : x.toNat < z.toNat := by omega
              simp [hxz]
        · by_cases hyx : y.toNat < x.toNat
          · rw [if_neg hxy, if_pos hyx] at h1
            exact absurd h1 (by simp)
          · rw [if_neg hxy, if_neg hyx] at h1
            by_cases hyz : y.toNat < z.toNat
            · have hxz : x.toNat < z.toNat := by omega
              simp [hxz]
            · by_cases hzy : z.toNat < y.toNat
              · rw [if_neg hyz, if_pos hzy] at h2
                exact absurd h2 (by simp)
              · rw [if_neg hyz, if_neg hzy] at h2
                have hxz1 : ¬ x.toNat < z.toNat := by omega
                have hxz2 : ¬ z.toNat < x.toNat := by omega
                rw [if_neg hxz1, if_neg hxz2]
                exact ih ys zs h1 h2

theorem nodeLeB_total : ∀ a b : TreeNode, nodeLeB a b = true ∨ nodeLeB b a = true := by
  intro a b
  by_cases h : a.type = b.type
  · simp [nodeLeB, h]
    exact lexLE_total _ _
  · cases ha : a.type <;> cases hb : b.type
    · rw [ha, hb] at h; exact absurd rfl h
    · right; simp [nodeLeB, ha, hb]
    · left; simp [nodeLeB, ha, hb]
    · rw [ha, hb] at h; exact absurd rfl h

theorem nodeLeB_trans :
    ∀ a b c : TreeNode, nodeLeB a b = true → nodeLeB b c = true → nodeLeB a c = true := by
  intro a b c h1 h2
  cases ha : a.type <;> cases hb : b.type <;> cases hc : c.type <;>
      simp_all [nodeLeB] <;> exact lexLE_trans _ _ _ h1 h2

/-- C3: for every directory and insertion order, the produced listing is
ordered directories-before-files and, within each group, by ascending
case-sensitive name (strictly, since sibling names are distinct), and
its members are exactly the entries of the directory whose name contains
the filter string case-insensitively. -/
theorem listing_order_and_filter (t : FileTree) (path fil : String)
    (hnodup : (getCurrentFiles t path).Pairwise (fun a b => a.name ≠ b.name)) :
    (currentFiles t path fil).Pairwise
      (fun a b =>
        (a.type = FileType.directory ∧ b.type = FileType.file) ∨
        (a.type = b.type ∧ lexLE a.name.data b.name.data = true ∧ a.name ≠ b.name)) ∧
    (∀ x, x ∈ currentFiles t path fil ↔
      x ∈ getCurrentFiles t path ∧ nameFilter fil x = true) := by
  have hperm : (currentFiles t path fil).Perm
      ((getCurrentFiles t path).filter (nameFilter fil)) :=
    perm_sortList _ _
  constructor
  · have hsorted : (currentFiles t path fil).Pairwise (fun a b => nodeLeB a b = true) :=
      pairwise_sortList nodeLeB nodeLeB_total nodeLeB_trans _
    have hne_filter : ((getCurrentFiles t path).filter (nameFilter fil)).Pairwise
        (fun a b : TreeNode => a.name ≠ b.name) :=
      List.Pairwise.sublist (List.filter_sublist _) hnodup
    have hne : (currentFiles t path fil).Pairwise (fun a b : TreeNode => a.name ≠ b.name) :=
      (List.Perm.pairwise_iff (fun h => Ne.symm h) hperm).2 hne_filter
    refine List.Pairwise.imp ?_ (hsorted.and hne)
    intro a b hab
    obtain ⟨hle, hnab⟩ := hab
    by_cases hty : a.type = b.type
    · right
      have hbeq : (a.type == b.type) = true := by simp [hty]
      simp only [nodeLeB, if_pos hbeq] at hle
      exact ⟨hty, hle, hnab⟩
    · left
      have hbeq : ¬ ((a.type == b.type) = true) := by simp [hty]
      simp only [nodeLeB, if_neg hbeq] at hle
      have ha : a.type = FileType.directory := eq_of_beq hle
      refine ⟨ha, ?_⟩
      cases hb : b.type
      · rfl
      · exact absurd (ha.trans hb.symm) hty
  · intro x
    rw [List.Perm.mem_iff hperm, List.mem_filter]

/-- Witness for C3: a two-entry root listing (a file inserted before a
directory) has distinct sibling names, and the filtered membership
characterisation holds at it. -/
theorem listing_order_and_filter_witness :
    (getCurrentFiles (buildFileTree
        [{ path := "b.txt", name := "b.txt", type := FileType.file,
           size := some 1, modified := "T" },
         { path := "a", name := "a", type := FileType.directory,
           size := none, modified := "T" }]) "").Pairwise
      (fun a b => a.name ≠ b.name) ∧
    (∀ x, x ∈ currentFiles (buildFileTree
        [{ path := "b.txt", name := "b.txt", type := FileType.file,
           size := some 1, modified := "T" },
         { path := "a", name := "a", type := FileType.directory,
           size := none, modified := "T" }]) "" "" ↔
      x ∈ getCurrentFiles (buildFileTree
        [{ path := "b.txt", name := "b.txt", type := FileType.file,
           size := some 1, modified := "T" },
         { path := "a", name := "a", type := FileType.directory,
           size := none, modified := "T" }]) "" ∧ nameFilter "" x = true) :=
  ⟨by decide,
   (listing_order_and_filter (buildFileTree
        [{ path := "b.txt", name := "b.txt", type := FileType.file,
           size := some 1, modified := "T" },
         { path := "a", name := "a", type := FileType.directory,
           size := none, modified := "T" }]) "" "" (by decide)).2⟩
